import Mathlib

/-!
Verification development for the Ratatoskr assistant.

The memory subsystem (src/memory/long_term.py), the dispatch machinery of the
Qt host (src/main.py) and the web-search tool (src/tools/web_search.py) are
embedded shallowly: module-level mutable state becomes an explicit state
record, file I/O becomes an explicit file-pair value, exceptions become
`Except`, and a dispatched worker is modelled by the list of messages it puts
on its one-shot queue.  Embedding vectors produced by the sentence-transformer
model are abstracted as an arbitrary function `String → List Int`.
-/

namespace Ratatoskr

/-! ## Long-term memory store (src/memory/long_term.py) -/

/-- An embedding vector.  The real code uses float32 rows; the model uses
integer coordinates, which keeps squared-distance arithmetic exact. -/
abbrev Vec := List Int

/-- Squared Euclidean distance between two vectors (the metric of
`faiss.IndexFlatL2`). -/
def sqDist (a b : Vec) : Nat :=
  ((a.zip b).map (fun p => (p.1 - p.2).natAbs ^ 2)).sum

/-- The module-level mutable state of `long_term.py`: the parallel document
log `doc_store` and the FAISS index, modelled as the list of its stored
vectors (so `ntotal` is `index.length`). -/
structure MemState where
  doc_store : List String
  index : List Vec
deriving DecidableEq

/-- The state right after `_initialize_memory` finds no files on disk:
a fresh `IndexFlatL2` and an empty document list. -/
def emptyState : MemState := ⟨[], []⟩

/-- One on-disk artifact: absent, unreadable/truncated, or valid content. -/
inductive FileState (α : Type) where
  | missing
  | corrupt
  | valid (content : α)
deriving DecidableEq

/-- Whether the artifact is present and loads without an exception. -/
def FileState.isValid {α : Type} : FileState α → Bool
  | .valid _ => true
  | _ => false

/-- The persisted pair: `memory/ratatoskr.index` and
`memory/ratatoskr_docs.json`. -/
structure MemFiles where
  indexFile : FileState (List Vec)
  docsFile : FileState (List String)
deriving DecidableEq

/-- Embeds `_initialize_memory` (src/memory/long_term.py lines 33-53): when
both files exist and both load, the store is the loaded pair; in every other
case (a file missing, or `faiss.read_index` / `json.load` raising, caught by
the `except` block) the store starts fresh and empty.  The function is total:
no exception escapes to the caller. -/
def initialize_memory (fs : MemFiles) : MemState :=
  match fs.indexFile, fs.docsFile with
  | .valid idx, .valid docs => ⟨docs, idx⟩
  | _, _ => emptyState

/-- The file pair written by `faiss.write_index` + `json.dump` inside
`store_memory`: a valid snapshot of the in-memory state. -/
def persistFiles (s : MemState) : MemFiles :=
  ⟨.valid s.index, .valid s.doc_store⟩

/-- Embeds `store_memory` (src/memory/long_term.py lines 68-85) for an
embedder `e`, on the state after `_initialize_memory` has run (so the
`isinstance` guard has passed).  There is no emptiness guard on
`text_chunk`: the embedding is added to the index, the text is appended to
the document log, both are persisted, and the Python function returns `None`
(the final component). -/
def store_memory (e : String → Vec) (s : MemState) (text_chunk : String) :
    MemState × MemFiles × Option String :=
  let s' : MemState := ⟨s.doc_store ++ [text_chunk], s.index ++ [e text_chunk]⟩
  (s', persistFiles s', none)

/-- Lexicographic comparison of `(distance, position)` rank pairs: nearer
first, and among equal distances the earlier insertion position first. -/
def rankLe (a b : Nat × Nat) : Prop :=
  a.1 < b.1 ∨ (a.1 = b.1 ∧ a.2 ≤ b.2)

instance : DecidableRel rankLe := fun a b => by
  unfold rankLe; exact inferInstance

instance : IsTotal (Nat × Nat) rankLe where
  total a b := by
    rcases Nat.lt_trichotomy a.1 b.1 with h | h | h
    · exact Or.inl (Or.inl h)
    · rcases Nat.le_total a.2 b.2 with h2 | h2
      · exact Or.inl (Or.inr ⟨h, h2⟩)
      · exact Or.inr (Or.inr ⟨h.symm, h2⟩)
    · exact Or.inr (Or.inl h)

instance : IsTrans (Nat × Nat) rankLe where
  trans a b c hab hbc := by
    rcases hab with h | ⟨he, hp⟩
    · rcases hbc with h2 | ⟨he2, _⟩
      · exact Or.inl (h.trans h2)
      · exact Or.inl (he2 ▸ h)
    · rcases hbc with h2 | ⟨he2, hp2⟩
      · exact Or.inl (he ▸ h2)
      · exact Or.inr ⟨he.trans he2, hp.trans hp2⟩

/-- Modelled from the spec: the rank pair `(distance, position)` of every
stored vector against a query.  `faiss.IndexFlatL2` is a third-party
dependency whose source is not under src/; the spec specifies an exhaustive
flat scan under squared Euclidean distance. -/
def faissRanks (index : List Vec) (q : Vec) : List (Nat × Nat) :=
  (List.range index.length).map (fun i => (sqDist q (index.getD i []), i))

/-- Modelled from the spec: `faiss.IndexFlatL2.search` returns the `k`
nearest stored vectors as `(distance, position)` pairs, ascending by
distance, ties broken in favor of the earlier insertion position.  The
caller in src/memory/long_term.py always passes `k ≤ ntotal`. -/
def faissSearch (index : List Vec) (q : Vec) (k : Nat) : List (Nat × Nat) :=
  (List.insertionSort rankLe (faissRanks index q)).take k

/-- Embeds `retrieve_relevant_memories` (src/memory/long_term.py lines
87-103) on the state after `_initialize_memory` has run: an empty index
returns `[]`; otherwise the index is searched with `k` clamped to `ntotal`
and each returned position is mapped back to the document at that
position. -/
def retrieve_relevant_memories (e : String → Vec) (s : MemState)
    (query_text : String) (n_results : Nat) : List String :=
  if s.index.length = 0 then []
  else
    (faissSearch s.index (e query_text) (min n_results s.index.length)).map
      (fun p => s.doc_store.getD p.2 "")

/-- The store states the program can be in when no mutation is in progress:
the fresh empty store, any state reached by a `store_memory` call, and any
state loaded by `_initialize_memory` from files the store itself
persisted. -/
inductive Reachable (e : String → Vec) : MemState → Prop where
  | fresh : Reachable e emptyState
  | store (s : MemState) (t : String) :
      Reachable e s → Reachable e (store_memory e s t).1
  | reload (s : MemState) :
      Reachable e s → Reachable e (initialize_memory (persistFiles s))

/-- A concrete embedder used to instantiate the abstract one in witnesses. -/
def embedLen : String → Vec := fun t => [(t.length : Int)]

/-! ## Dispatch machinery of the Qt host (src/main.py) -/

/-- One conversation turn, as stored in `conversation_history`. -/
structure Turn where
  role : String
  content : String
deriving DecidableEq

/-- Python's `str.strip()` on a character list: drop leading and trailing
whitespace. -/
def stripList (l : List Char) : List Char :=
  ((l.dropWhile Char.isWhitespace).reverse.dropWhile Char.isWhitespace).reverse

/-- Python's `str.strip()`. -/
def pyStrip (s : String) : String := ⟨stripList s.data⟩

/-- The outcome of the body of `worker_thread`'s `try` block: either the
agent executor returned (its `"output"` key possibly absent), or some
exception was raised anywhere inside the block — agent construction, tool
calls, memory-store calls, inference. -/
inductive PipelineOutcome where
  | success (output : Option String)
  | exn (msg : String)
deriving DecidableEq

/-- The text `worker_thread` ends up with: the agent output, the fallback for
a missing `"output"` key, or the `except` branch's rendering of the caught
exception. -/
def renderOutcome : PipelineOutcome → String
  | .success (some out) => out
  | .success none => "The agent could not determine a response."
  | .exn msg => "Error: " ++ msg

/-- Embeds `worker_thread` (src/main.py lines 58-125) as the sequence of
messages it puts on its queue: the `try`/`except` computes `ai_text` and the
single `queue.put(ai_text)` after the handler runs on every path. -/
def worker_thread (o : PipelineOutcome) : List String := [renderOutcome o]

/-- The host-side state touched by `send_message` / `check_for_response` in
`RatatoskrApp`: the input box text, the busy flag set by `set_ui_busy`, the
current result queue (`none` before the first dispatch, otherwise the list
of messages currently in it), the polling timer, and the history. -/
structure AppState where
  inputText : String
  busy : Bool
  mpQueue : Option (List String)
  timerOn : Bool
  history : List Turn
deriving DecidableEq

/-- What a `send_message` call did: nothing (empty input), or started a
worker thread on the given input. -/
inductive DispatchEffect where
  | noSpawn
  | spawn (input : String)
deriving DecidableEq

/-- Embeds `send_message` (src/main.py lines 207-219): strip the input; an
empty result returns immediately; otherwise set the UI busy, append the user
turn, clear the input box, install a fresh queue, spawn the worker and start
the 100ms polling timer.  The method performs no outstanding-task check and
raises nothing. -/
def send_message (s : AppState) : AppState × DispatchEffect :=
  let user_text := pyStrip s.inputText
  if user_text = "" then (s, .noSpawn)
  else
    ({ inputText := ""
       busy := true
       mpQueue := some []
       timerOn := true
       history := s.history ++ [⟨"user", user_text⟩] },
     .spawn user_text)

/-- The worker's `queue.put`: delivery of its terminal message into the
current queue. -/
def worker_put (s : AppState) (msg : String) : AppState :=
  { s with mpQueue := s.mpQueue.map (fun q => q ++ [msg]) }

/-- Embeds `handle_ai_response` (src/main.py lines 227-238): clear the busy
flag; an `Error`-prefixed text goes to the error display without touching
the history, otherwise the assistant turn is appended. -/
def handle_ai_response (s : AppState) (ai_text : String) : AppState :=
  let s1 := { s with busy := false }
  if ai_text.startsWith "Error" then s1
  else { s1 with history := s1.history ++ [⟨"assistant", ai_text⟩] }

/-- Embeds `check_for_response` (src/main.py lines 221-225): when the queue
exists and is non-empty, stop the timer, pop the message and hand it to
`handle_ai_response`; otherwise do nothing until the next timer tick. -/
def check_for_response (s : AppState) : AppState :=
  match s.mpQueue with
  | some (m :: rest) =>
      handle_ai_response { s with mpQueue := some rest, timerOn := false } m
  | _ => s

/-- The idle host before any dispatch, with `"hi"` typed in the input box. -/
def cexIdleState : AppState :=
  { inputText := "hi", busy := false, mpQueue := none, timerOn := false
    history := [] }

/-- The host right after dispatching `"hi"`: the task is outstanding (its
result is neither produced nor consumed) and, programmatically, new text has
been placed in the input box. -/
def cexOutstandingState : AppState :=
  { (send_message cexIdleState).1 with inputText := "again" }

/-! ## Web search tool (src/tools/web_search.py) -/

/-- One result dict from `ddgs.text`: its optional `href` and `title`
keys. -/
structure SearchHit where
  href : Option String
  title : Option String
deriving DecidableEq

/-- What `requests.get(url)` followed by `raise_for_status()` and `.text`
does for a given URL: a body, a raised `requests.RequestException` (caught
by the inner handler), or any other raised exception (caught only by the
outer handler). -/
inductive FetchResult where
  | ok (body : String)
  | requestExn (msg : String)
  | otherExn (msg : String)
deriving DecidableEq

/-- The external behavior `perform_web_search` runs against: the outcome of
the DDGS text search (which may itself raise), the fetch behavior per URL,
and `_extract_text_from_html` (total: its own handler returns `""` on any
parse error). -/
structure WebEnv where
  search : Except String (List SearchHit)
  fetch : String → FetchResult
  extract : String → String

/-- The result-processing loop of `perform_web_search`: skip hits without an
`href`, skip fetches that raise a `requests.RequestException`, skip pages
with no extracted text, collect `From {title}: {text[:1500]}` otherwise; any
other exception aborts the loop and propagates. -/
def fetchLoop (env : WebEnv) : List SearchHit → List String →
    Except String (List String)
  | [], acc => .ok acc
  | h :: rest, acc =>
    match h.href with
    | none => fetchLoop env rest acc
    | some url =>
      if url = "" then fetchLoop env rest acc
      else
        match env.fetch url with
        | .ok body =>
          let page_text := env.extract body
          if page_text = "" then fetchLoop env rest acc
          else
            fetchLoop env rest
              (acc ++ ["From " ++ h.title.getD "Source" ++ ": " ++
                page_text.take 1500])
        | .requestExn _ => fetchLoop env rest acc
        | .otherExn m => .error m

/-- The body of `perform_web_search`'s outer `try` block (src/tools/
web_search.py lines 36-64), with raised exceptions as `Except.error`
propagating outward. -/
def perform_web_search_body (env : WebEnv) : Except String String :=
  match env.search with
  | .error m => .error m
  | .ok results =>
    if results.isEmpty then
      .ok "I couldn\x27t find any recent results for your query."
    else
      match fetchLoop env results [] with
      | .error m => .error m
      | .ok all_content =>
        if all_content.isEmpty then
          .ok "Could not retrieve readable content for your query."
        else .ok (String.intercalate "\n\n" all_content)

/-- Embeds `perform_web_search` (src/tools/web_search.py lines 20-68): the
outer `except Exception` converts any escaped exception into a fixed
message, so the caller always receives a plain string. -/
def perform_web_search (env : WebEnv) : Except String String :=
  match perform_web_search_body env with
  | .ok s => .ok s
  | .error _ => .ok "An error occurred while performing the web search."

/-! ## Helper lemmas -/

/-- Reloading the file pair written by the store recovers the same state. -/
theorem initialize_memory_persistFiles (s : MemState) :
    initialize_memory (persistFiles s) = s := rfl

/-- Unfolding of `sqDist` on cons cells. -/
theorem sqDist_cons (x y : Int) (xs ys : Vec) :
    sqDist (x :: xs) (y :: ys) = (x - y).natAbs ^ 2 + sqDist xs ys := rfl

/-- A vector is at distance zero from itself. -/
theorem sqDist_self (a : Vec) : sqDist a a = 0 := by
  induction a with
  | nil => rfl
  | cons x xs ih => rw [sqDist_cons]; simp [ih]

/-- Distance zero between same-dimension vectors forces equality. -/
theorem sqDist_eq_zero {a b : Vec} (h : a.length = b.length)
    (h0 : sqDist a b = 0) : a = b := by
  induction a generalizing b with
  | nil =>
    cases b with
    | nil => rfl
    | cons y ys => simp at h
  | cons x xs ih =>
    cases b with
    | nil => simp at h
    | cons y ys =>
      rw [sqDist_cons] at h0
      have h1 : (x - y).natAbs ^ 2 = 0 := by omega
      have h2 : sqDist xs ys = 0 := by omega
      have hx : x = y := by
        have := Int.natAbs_eq_zero.mp (pow_eq_zero_iff two_ne_zero |>.mp h1)
        omega
      have hxs : xs = ys := ih (by simpa using h) h2
      rw [hx, hxs]

/-- The pairwise relation the search results satisfy: strictly nearer, or
equally near with a strictly earlier insertion position. -/
def rankLt (a b : Nat × Nat) : Prop := a.1 < b.1 ∨ (a.1 = b.1 ∧ a.2 < b.2)

/-- There is one rank pair per stored vector. -/
theorem length_faissRanks (index : List Vec) (q : Vec) :
    (faissRanks index q).length = index.length := by
  simp [faissRanks]

/-- Characterization of the rank pairs. -/
theorem mem_faissRanks {index : List Vec} {q : Vec} {p : Nat × Nat} :
    p ∈ faissRanks index q ↔
      p.2 < index.length ∧ p.1 = sqDist q (index.getD p.2 []) := by
  simp only [faissRanks, List.mem_map, List.mem_range]
  constructor
  · rintro ⟨i, hi, rfl⟩
    exact ⟨hi, rfl⟩
  · rintro ⟨hi, hp⟩
    exact ⟨p.2, hi, by rw [← hp]⟩

/-- The positions of the rank pairs, in order. -/
theorem map_snd_faissRanks (index : List Vec) (q : Vec) :
    (faissRanks index q).map Prod.snd = List.range index.length := by
  rw [faissRanks, List.map_map]
  exact List.map_id _

/-- The sorted rank list is pairwise strictly increasing in
`(distance, position)` lexicographic order. -/
theorem pairwise_rankLt_sorted (index : List Vec) (q : Vec) :
    List.Pairwise rankLt (List.insertionSort rankLe (faissRanks index q)) := by
  have hsorted := List.sorted_insertionSort rankLe (faissRanks index q)
  have hperm := List.perm_insertionSort rankLe (faissRanks index q)
  have hnd : ((faissRanks index q).map Prod.snd).Nodup := by
    rw [map_snd_faissRanks]; exact List.nodup_range _
  have hnd2 :
      ((List.insertionSort rankLe (faissRanks index q)).map Prod.snd).Nodup :=
    ((hperm.map Prod.snd).nodup_iff).mpr hnd
  have hpw : List.Pairwise (fun a b : Nat × Nat => a.2 ≠ b.2)
      (List.insertionSort rankLe (faissRanks index q)) :=
    List.pairwise_map.mp hnd2
  refine (hsorted.and hpw).imp ?_
  rintro a b ⟨hle | ⟨he, hp⟩, hne⟩
  · exact Or.inl hle
  · exact Or.inr ⟨he, lt_of_le_of_ne hp hne⟩

/-- The head of the sorted rank list is `rankLe`-minimal among all ranks. -/
theorem sorted_head_min {l : List (Nat × Nat)} {x : Nat × Nat}
    {rest : List (Nat × Nat)}
    (hs : List.insertionSort rankLe l = x :: rest) :
    ∀ y ∈ l, rankLe x y := by
  intro y hy
  have hy2 : y ∈ List.insertionSort rankLe l :=
    ((List.perm_insertionSort rankLe l).mem_iff).mpr hy
  rw [hs] at hy2
  have hsorted := List.sorted_insertionSort rankLe l
  rw [hs] at hsorted
  rcases List.mem_cons.mp hy2 with rfl | hy3
  · exact Or.inr ⟨rfl, Nat.le_refl _⟩
  · exact (List.sorted_cons.mp hsorted).1 y hy3

/-- Looking an index position up through the mapped embeddings gives the
embedding of the document at that position. -/
theorem getD_map_embed (e : String → Vec) (l : List String) (i : Nat)
    (h : i < l.length) :
    (l.map e).getD i [] = e (l.getD i "") := by
  rw [List.getD_eq_getElem _ _ (by simpa using h), List.getD_eq_getElem _ _ h,
    List.getElem_map]

/-- In every reachable store state the index holds exactly the embeddings of
the document log, in order. -/
theorem reachable_index_eq_map (e : String → Vec) (s : MemState)
    (h : Reachable e s) : s.index = s.doc_store.map e := by
  induction h with
  | fresh => rfl
  | store s t _ ih => simp [store_memory, ih]
  | reload s _ ih => rw [initialize_memory_persistFiles]; exact ih

/-- Core round-trip fact: on a store whose index is the embedding image of
its document log, retrieving the text just appended with `n_results = 1`
returns exactly that text, provided no other stored document collides with
its embedding. -/
theorem roundtrip_core (e : String → Vec) (docs : List String) (text : String)
    (hdim : ∀ d ∈ docs, (e d).length = (e text).length)
    (hinj : ∀ d ∈ docs, e d = e text → d = text) :
    retrieve_relevant_memories e
      ⟨docs ++ [text], (docs ++ [text]).map e⟩ text 1 = [text] := by
  have hne0 : ((docs ++ [text]).map e).length ≠ 0 := by simp
  have hmin : min 1 ((docs ++ [text]).map e).length = 1 := by
    simp
  rw [retrieve_relevant_memories]
  rw [if_neg hne0, hmin]
  have hlen2 : (List.insertionSort rankLe
      (faissRanks ((docs ++ [text]).map e) (e text))).length
      = docs.length + 1 := by
    rw [List.length_insertionSort, length_faissRanks]; simp
  rw [faissSearch]
  cases hs : List.insertionSort rankLe
      (faissRanks ((docs ++ [text]).map e) (e text)) with
  | nil => rw [hs] at hlen2; simp at hlen2
  | cons x rest =>
    simp only [List.take_succ_cons, List.take_zero, List.map_cons,
      List.map_nil]
    have hxmem : x ∈ faissRanks ((docs ++ [text]).map e) (e text) :=
      ((List.perm_insertionSort rankLe _).mem_iff).mp
        (hs ▸ List.mem_cons_self x rest)
    obtain ⟨hx2, hx1⟩ := mem_faissRanks.mp hxmem
    have hx2' : x.2 < (docs ++ [text]).length := by simpa using hx2
    have hlast : ((docs ++ [text]).map e).getD docs.length [] = e text := by
      rw [getD_map_embed e _ _ (by simp)]
      congr 1
      simp [List.getD_eq_getElem]
    have hm0 : (0, docs.length) ∈
        faissRanks ((docs ++ [text]).map e) (e text) := by
      refine mem_faissRanks.mpr ⟨by simp, ?_⟩
      rw [hlast, sqDist_self]
    have hrle : rankLe x (0, docs.length) := sorted_head_min hs _ hm0
    have hx10 : x.1 = 0 := by
      rcases hrle with h | ⟨h, _⟩
      · exact absurd h (Nat.not_lt_zero _)
      · exact h
    have hd0 : sqDist (e text)
        (e ((docs ++ [text]).getD x.2 "")) = 0 := by
      rw [← getD_map_embed e _ _ hx2', ← hx1, hx10]
    have hdmem : (docs ++ [text]).getD x.2 "" ∈ docs ++ [text] := by
      rw [List.getD_eq_getElem _ _ hx2']
      exact List.getElem_mem _
    have hdtext : (docs ++ [text]).getD x.2 "" = text := by
      rcases List.mem_append.mp hdmem with hin | hin
      · have heq : e text = e ((docs ++ [text]).getD x.2 "") :=
          sqDist_eq_zero (hdim _ hin).symm hd0
        exact hinj _ hin heq.symm
      · simpa using hin
    rw [hdtext]

/-! ## Claims -/

/-- C1: after any finite sequence of `store_memory` calls from the initial
state, and right after initialization or a reload from the store's own
persisted files, the document log and the FAISS index have the same number
of entries (`len(doc_store) == faiss_index.ntotal`). -/
theorem mem_invariant_doc_index_length (e : String → Vec) (s : MemState)
    (h : Reachable e s) : s.doc_store.length = s.index.length := by
  induction h with
  | fresh => rfl
  | store s t _ ih => simp [store_memory]; omega
  | reload s _ ih => rw [initialize_memory_persistFiles]; exact ih

/-- Witness for C1 at a concrete one-step state. -/
theorem mem_invariant_doc_index_length_witness :
    (store_memory embedLen emptyState "hi").1.doc_store.length =
      (store_memory embedLen emptyState "hi").1.index.length :=
  mem_invariant_doc_index_length embedLen _
    (Reachable.store emptyState "hi" Reachable.fresh)

/-- C2: on any reachable store, after `store_memory text` completes,
`retrieve_relevant_memories text 1` returns `[text]` — the identical text
is its own nearest neighbor at distance 0.  The embedder is modelled as an
arbitrary deterministic function; the collision hypotheses hold for every
injective embedder. -/
theorem remember_recall_roundtrip (e : String → Vec) (s : MemState)
    (text : String) (hr : Reachable e s) (_hne : text ≠ "")
    (hdim : ∀ d ∈ s.doc_store, (e d).length = (e text).length)
    (hinj : ∀ d ∈ s.doc_store, e d = e text → d = text) :
    retrieve_relevant_memories e (store_memory e s text).1 text 1 = [text] := by
  have hmap := reachable_index_eq_map e s hr
  have hst : (store_memory e s text).1
      = ⟨s.doc_store ++ [text], (s.doc_store ++ [text]).map e⟩ := by
    simp [store_memory, hmap]
  rw [hst]
  exact roundtrip_core e s.doc_store text hdim hinj

/-- Witness for C2: storing `hi` in the fresh store and recalling it. -/
theorem remember_recall_roundtrip_witness :
    retrieve_relevant_memories embedLen
      (store_memory embedLen emptyState "hi").1 "hi" 1 = ["hi"] :=
  remember_recall_roundtrip embedLen emptyState "hi" Reachable.fresh
    (by decide) (by simp [emptyState]) (by simp [emptyState])

/-- C9: `store_memory` writes both artifacts before returning, so reopening
the store from exactly the files it just persisted and recalling the stored
text with `n_results = 1` returns `[text]`. -/
theorem persist_reopen_recall (e : String → Vec) (s : MemState)
    (text : String) (hr : Reachable e s) (_hne : text ≠ "")
    (hdim : ∀ d ∈ s.doc_store, (e d).length = (e text).length)
    (hinj : ∀ d ∈ s.doc_store, e d = e text → d = text) :
    retrieve_relevant_memories e
      (initialize_memory (store_memory e s text).2.1) text 1 = [text] := by
  have hfs : (store_memory e s text).2.1
      = persistFiles (store_memory e s text).1 := rfl
  rw [hfs, initialize_memory_persistFiles]
  have hmap := reachable_index_eq_map e s hr
  have hst : (store_memory e s text).1
      = ⟨s.doc_store ++ [text], (s.doc_store ++ [text]).map e⟩ := by
    simp [store_memory, hmap]
  rw [hst]
  exact roundtrip_core e s.doc_store text hdim hinj

/-- Witness for C9: persisting `fact A`, reopening, recalling. -/
theorem persist_reopen_recall_witness :
    retrieve_relevant_memories embedLen
      (initialize_memory (store_memory embedLen emptyState "fact A").2.1)
      "fact A" 1 = ["fact A"] :=
  persist_reopen_recall embedLen emptyState "fact A" Reachable.fresh
    (by decide) (by simp [emptyState]) (by simp [emptyState])

/-- C4: whatever the dispatched pipeline does — return an output, return
without an `"output"` key, or raise any exception — `worker_thread` puts
exactly one terminal message on the queue, and a raised exception becomes a
human-readable `Error: ...` message instead of a crash. -/
theorem worker_single_terminal (o : PipelineOutcome) :
    (worker_thread o).length = 1
    ∧ (∀ msg, o = .exn msg → worker_thread o = ["Error: " ++ msg])
    ∧ (∀ out, o = .success (some out) → worker_thread o = [out]) := by
  refine ⟨rfl, ?_, ?_⟩ <;> rintro x rfl <;> rfl

/-- Witness for C4 at a pipeline raising `boom`. -/
theorem worker_single_terminal_witness :
    worker_thread (PipelineOutcome.exn "boom") = ["Error: " ++ "boom"] :=
  (worker_single_terminal (PipelineOutcome.exn "boom")).2.1 "boom" rfl

/-- C5: whenever the persisted pair is not fully present and loadable — a
file missing, only one of the two present, or either unreadable — the store
initializes empty and fully functional (recall answers `[]`, a subsequent
store works), and the loading failure never escapes to the caller (the
embedded `_initialize_memory` is a total function). -/
theorem load_corrupt_resets_empty (fs : MemFiles)
    (h : (fs.indexFile.isValid && fs.docsFile.isValid) = false) :
    initialize_memory fs = emptyState
    ∧ (∀ e q k, retrieve_relevant_memories e (initialize_memory fs) q k = [])
    ∧ (∀ e t, (store_memory e (initialize_memory fs) t).1 =
        ⟨[t], [e t]⟩) := by
  obtain ⟨fi, fd⟩ := fs
  have hinit : initialize_memory ⟨fi, fd⟩ = emptyState := by
    cases fi <;> cases fd <;> simp [FileState.isValid] at h <;> rfl
  refine ⟨hinit, ?_, ?_⟩
  · intro e q k
    rw [hinit]
    rfl
  · intro e t
    rw [hinit]
    rfl

/-- Witness for C5 at a pair whose index file is unreadable. -/
theorem load_corrupt_resets_empty_witness :
    initialize_memory ⟨FileState.corrupt, FileState.valid []⟩ = emptyState :=
  (load_corrupt_resets_empty ⟨FileState.corrupt, FileState.valid []⟩
    (by decide)).1

/-- C6 counterexample: `store_memory` on the empty string is not a no-op —
it appends the empty text to the document log — and even on non-empty text
it returns `None`, not a hash-derived record id. -/
theorem store_memory_no_id_cex :
    (store_memory embedLen emptyState "").1.doc_store = [""]
    ∧ (store_memory embedLen emptyState "hello").2.2 = none :=
  ⟨rfl, rfl⟩

/-- C6 amended: `store_memory` appends every text (empty or not) together
with its embedding, persists the new pair, and always returns `None`; no id
is computed for any input. -/
theorem store_memory_appends_returns_none (e : String → Vec) (s : MemState)
    (t : String) :
    (store_memory e s t).1.doc_store = s.doc_store ++ [t]
    ∧ (store_memory e s t).1.index = s.index ++ [e t]
    ∧ (store_memory e s t).2.2 = none
    ∧ (store_memory e s t).2.1 = persistFiles (store_memory e s t).1 :=
  ⟨rfl, rfl, rfl, rfl⟩

/-- C7: retrieval on a store whose index holds no vectors returns the empty
list, for every query and every requested `n_results`, without raising. -/
theorem recall_empty_store (e : String → Vec) (s : MemState) (q : String)
    (k : Nat) (h : s.index.length = 0) :
    retrieve_relevant_memories e s q k = [] := by
  simp [retrieve_relevant_memories, h]

/-- Witness for C7 on the freshly created store. -/
theorem recall_empty_store_witness :
    retrieve_relevant_memories embedLen emptyState "q" 2 = [] :=
  recall_empty_store embedLen emptyState "q" 2 rfl

/-- C8: the search that backs `retrieve_relevant_memories` returns exactly
`min(k, ntotal)` `(distance, position)` pairs, pairwise ascending by squared
Euclidean distance with ties broken in favor of the earlier insertion
position, no unreturned candidate ranks below a returned one, and on a
non-empty store the retrieved texts are exactly the documents at the
returned positions. -/
theorem search_results_spec (e : String → Vec) (s : MemState) (q : String)
    (k : Nat) :
    (faissSearch s.index (e q) (min k s.index.length)).length
        = min k s.index.length
    ∧ List.Pairwise rankLt (faissSearch s.index (e q) (min k s.index.length))
    ∧ (∀ p ∈ faissSearch s.index (e q) (min k s.index.length),
        p.2 < s.index.length ∧ p.1 = sqDist (e q) (s.index.getD p.2 []))
    ∧ (∀ p ∈ faissSearch s.index (e q) (min k s.index.length),
        ∀ p2 ∈ faissRanks s.index (e q),
          p2 ∉ faissSearch s.index (e q) (min k s.index.length) →
            rankLe p p2)
    ∧ (s.index.length ≠ 0 →
        retrieve_relevant_memories e s q k =
          (faissSearch s.index (e q) (min k s.index.length)).map
            (fun p => s.doc_store.getD p.2 "")) := by
  have hlen : (List.insertionSort rankLe (faissRanks s.index (e q))).length
      = s.index.length := by
    rw [List.length_insertionSort, length_faissRanks]
  refine ⟨?_, ?_, ?_, ?_, ?_⟩
  · rw [faissSearch, List.length_take, hlen]
    exact Nat.min_eq_left (Nat.min_le_right _ _)
  · exact (pairwise_rankLt_sorted s.index (e q)).sublist
      (List.take_sublist _ _) |>.imp (fun h => h) |>.imp (fun h => h)
  · intro p hp
    have hp2 : p ∈ List.insertionSort rankLe (faissRanks s.index (e q)) :=
      List.take_subset _ _ hp
    have hp3 : p ∈ faissRanks s.index (e q) :=
      ((List.perm_insertionSort rankLe _).mem_iff).mp hp2
    exact mem_faissRanks.mp hp3
  · intro p hp p2 hp2 hnot
    have hsorted := List.sorted_insertionSort rankLe (faissRanks s.index (e q))
    have hsplit := List.take_append_drop (min k s.index.length)
      (List.insertionSort rankLe (faissRanks s.index (e q)))
    have hpw : List.Pairwise rankLe
        (List.take (min k s.index.length)
            (List.insertionSort rankLe (faissRanks s.index (e q)))
          ++ List.drop (min k s.index.length)
            (List.insertionSort rankLe (faissRanks s.index (e q)))) := by
      rw [hsplit]; exact hsorted
    have hp2' : p2 ∈ List.insertionSort rankLe (faissRanks s.index (e q)) :=
      ((List.perm_insertionSort rankLe _).mem_iff).mpr hp2
    rw [← hsplit] at hp2'
    rcases List.mem_append.mp hp2' with hin | hin
    · exact absurd hin hnot
    · exact (List.pairwise_append.mp hpw).2.2 p hp p2 hin
  · intro hne
    rw [retrieve_relevant_memories, if_neg hne]

/-- Witness for C8 on a concrete two-document store. -/
theorem search_results_spec_witness :
    (⟨["a", "b"], [[0], [3]]⟩ : MemState).index.length ≠ 0
    ∧ retrieve_relevant_memories embedLen ⟨["a", "b"], [[0], [3]]⟩ "xy" 5 =
        (faissSearch (⟨["a", "b"], [[0], [3]]⟩ : MemState).index
            (embedLen "xy") (min 5 2)).map
          (fun p => (["a", "b"] : List String).getD p.2 "") :=
  ⟨by decide,
    (search_results_spec embedLen ⟨["a", "b"], [[0], [3]]⟩ "xy" 5).2.2.2.2
      (by decide)⟩

/-- C3 counterexample: with the first task still outstanding (busy, queue
installed, no result produced or consumed), a second `send_message` call
with text in the input box starts a second worker; no caller error is
raised anywhere (the embedded `send_message` has no error outcome). -/
theorem second_dispatch_no_error_cex :
    cexOutstandingState.busy = true
    ∧ cexOutstandingState.mpQueue = some []
    ∧ (send_message cexOutstandingState).2 = DispatchEffect.spawn "again" := by
  decide

/-- C3 amended: `send_message` never raises; single-flight is enforced only
by the UI gating — a dispatch clears the input box and sets the UI busy, so
a second call finds empty input and no-ops — while any call that does find
non-blank input dispatches unconditionally, and after the previous result is
consumed a new dispatch succeeds. -/
theorem dispatch_gating (s : AppState) :
    (pyStrip s.inputText = "" → send_message s = (s, DispatchEffect.noSpawn))
    ∧ (pyStrip s.inputText ≠ "" →
        (send_message s).2 = DispatchEffect.spawn (pyStrip s.inputText)
        ∧ (send_message s).1.inputText = ""
        ∧ (send_message s).1.busy = true)
    ∧ (∀ msg t, pyStrip t ≠ "" →
        (send_message
          { check_for_response (worker_put (send_message s).1 msg) with
            inputText := t }).2 = DispatchEffect.spawn (pyStrip t)) := by
  refine ⟨?_, ?_, ?_⟩
  · intro h
    simp [send_message, h]
  · intro h
    simp [send_message, h]
  · intro msg t h
    simp [send_message, h]

/-- Witness for C3's amended claim on the idle host with `hi` typed in. -/
theorem dispatch_gating_witness :
    pyStrip "hi" ≠ ""
    ∧ (send_message cexIdleState).2 = DispatchEffect.spawn (pyStrip "hi") :=
  ⟨by decide, ((dispatch_gating cexIdleState).2.1 (by decide)).1⟩

/-- C10: `perform_web_search` never lets an exception escape: every search
backend outcome (a raised search exception, no results, unfetchable or
unreadable pages, or a non-request exception during fetching) yields a plain
result string. -/
theorem web_search_never_raises (env : WebEnv) :
    (∃ s, perform_web_search env = Except.ok s)
    ∧ (∀ m, env.search = Except.error m →
        perform_web_search env =
          Except.ok "An error occurred while performing the web search.")
    ∧ (env.search = Except.ok [] →
        perform_web_search env =
          Except.ok "I couldn\x27t find any recent results for your query.") := by
  refine ⟨?_, ?_, ?_⟩
  · cases hb : perform_web_search_body env with
    | ok s => exact ⟨s, by simp [perform_web_search, hb]⟩
    | error m =>
      exact ⟨"An error occurred while performing the web search.",
        by simp [perform_web_search, hb]⟩
  · intro m hm
    simp [perform_web_search, perform_web_search_body, hm]
  · intro hm
    simp [perform_web_search, perform_web_search_body, hm]

/-- Witness for C10 with a search backend that raises. -/
theorem web_search_never_raises_witness :
    perform_web_search
      ⟨Except.error "boom", fun _ => FetchResult.otherExn "x", fun _ => ""⟩ =
      Except.ok "An error occurred while performing the web search." :=
  (web_search_never_raises
    ⟨Except.error "boom", fun _ => FetchResult.otherExn "x", fun _ => ""⟩).2.1
    "boom" rfl

end Ratatoskr
